import Mathlib

set_option maxHeartbeats 1000000

/-
Shallow embedding of the HackRx retrieval system (src/app.py).

The embedding covers the chunker (DocumentProcessor.sentence_aware_chunking),
the vector index and document store (SemanticSearchService.embed_and_index and
search), and the answer synthesizer (LLMService.generate_answer and
process_all_queries).  The external collaborators are abstracted as function
parameters: the embedding model is `embed : String → V` for an arbitrary vector
type `V`, squared-L2 distance is `d : V → V → ℚ`, the generative model is an
attempt-indexed oracle `gen : Nat → Except String String` (error message or
response text), and `np.random.uniform(0, 1)` is a jitter sequence
`jitter : Nat → ℚ`.
-/

/-- ASCII whitespace, the characters matched by the regex class \s (and
stripped by str.strip) on the inputs this pipeline handles. -/
def isWsChar (c : Char) : Bool :=
  c == ' ' || c == '\t' || c == '\n' || c == '\r' || c == '\x0b' || c == '\x0c'

/-- Sentence-ending punctuation of the chunker's lookbehind class [.!?]
(src/app.py line 149). -/
def isSentEnd (c : Char) : Bool :=
  c == '.' || c == '!' || c == '?'

/-- text.replace of a single-character pattern: replaces every newline by a
space (src/app.py line 149). -/
def replaceNl (cs : List Char) : List Char :=
  cs.map (fun c => if c == '\n' then ' ' else c)

/-- Python str.strip on a character list: drop whitespace from both ends. -/
def stripChars (cs : List Char) : List Char :=
  ((cs.dropWhile isWsChar).reverse.dropWhile isWsChar).reverse

/-- Python s.strip() (src/app.py line 150). -/
def pyStrip (s : String) : String := String.mk (stripChars s.data)

/-- Core of re.split with the sentence pattern (src/app.py line 149): the text
is cut at every maximal whitespace run that directly follows a character in
[.!?]; the whitespace run itself is consumed.  `cur` holds the current segment
reversed, so its head is the character just before the one being examined; the
Bool is true while consuming the remainder of a whitespace run at which a cut
was made (during which `cur` is empty). -/
def splitAux : List Char → List Char → Bool → List (List Char)
  | [], cur, _ => [cur.reverse]
  | c :: rest, cur, true =>
    if isWsChar c then splitAux rest cur true
    else splitAux rest [c] false
  | c :: rest, cur, false =>
    if isWsChar c && (match cur with | p :: _ => isSentEnd p | [] => false) then
      cur.reverse :: splitAux rest [] true
    else
      splitAux rest (c :: cur) false

/-- re.split of the sentence-boundary pattern applied to text with newlines
replaced by spaces (src/app.py line 149). -/
def splitIntoSentences (s : String) : List String :=
  (splitAux (replaceNl s.data) [] false).map String.mk

/-- Python str.split() with no argument: maximal runs of non-whitespace
characters, empty strings never produced. -/
def splitWordsAux : List Char → List Char → List (List Char)
  | [], cur => if cur.isEmpty then [] else [cur.reverse]
  | c :: rest, cur =>
    if isWsChar c then
      if cur.isEmpty then splitWordsAux rest []
      else cur.reverse :: splitWordsAux rest []
    else
      splitWordsAux rest (c :: cur)

/-- Python s.split() on a string. -/
def pyWords (s : String) : List String :=
  (splitWordsAux s.data []).map String.mk

/-- len(sentence.split()), the word count the chunker budgets with
(src/app.py line 153). -/
def wc (s : String) : Nat := (pyWords s).length

/-- " ".join(l) (src/app.py lines 158 and 161). -/
def joinSpace (l : List String) : String := String.intercalate " " l

/-- Total word count of a group of sentences. -/
def sumWc (l : List String) : Nat := (l.map wc).sum

/-- DocumentChunk (src/app.py line 95): content plus the metadata dict built at
line 158, which holds chunk_id and the source identifier the route passes in. -/
structure DocumentChunk where
  content : String
  chunk_id : Nat
  source : String
  deriving DecidableEq

/-- The greedy packing loop of sentence_aware_chunking (src/app.py lines
151-159): `cur` is current_chunk_sentences, `len` is current_chunk_length and
`acc` is the chunks list (as sentence groups).  On the final line of the
source (160-161) the in-progress group is emitted only when non-empty, but the
overflow branch emits `cur` unconditionally, even when it is empty. -/
def packLoop (chunkSize : Nat) : List String → List String → Nat → List (List String) → List (List String)
  | [], cur, _, acc => if cur.isEmpty then acc else acc ++ [cur]
  | s :: rest, cur, len, acc =>
    if len + wc s ≤ chunkSize then
      packLoop chunkSize rest (cur ++ [s]) (len + wc s) acc
    else
      packLoop chunkSize rest [s] (wc s) (acc ++ [cur])

/-- The stripped, length-filtered sentence list (src/app.py line 150): the code
keeps a segment exactly when len(s.strip()) > 10. -/
def keptSentences (text : String) : List String :=
  ((splitIntoSentences text).map pyStrip).filter (fun s => 10 < s.length)

/-- The chunker's packed sentence groups; self.chunk_size = 256
(src/app.py line 109). -/
def packChunks (text : String) : List (List String) :=
  packLoop 256 (keptSentences text) [] 0 []

/-- Joins each group with spaces and assigns chunk_id = len(chunks) at append
time, which is the group's position (src/app.py lines 158 and 161). -/
def assignIds (source : String) : Nat → List (List String) → List DocumentChunk
  | _, [] => []
  | i, g :: gs => ⟨joinSpace g, i, source⟩ :: assignIds source (i + 1) gs

/-- DocumentProcessor.sentence_aware_chunking (src/app.py lines 148-162). -/
def DocumentProcessor.sentence_aware_chunking (text : String) (source : String) : List DocumentChunk :=
  assignIds source 0 (packChunks text)

/-- An entry of DOCUMENT_STORE: the dict {"content": ..., "metadata": ...}
appended at src/app.py line 186. -/
structure StoreEntry where
  content : String
  chunk_id : Nat
  source : String
  deriving DecidableEq

/-- The store record built from a chunk (src/app.py line 186). -/
def toEntry (c : DocumentChunk) : StoreEntry := ⟨c.content, c.chunk_id, c.source⟩

/-- The process-wide state: FAISS_INDEX (its vectors, in insertion order) and
DOCUMENT_STORE (src/app.py lines 73-74). -/
structure SearchState (V : Type) where
  faiss_index : List V
  document_store : List StoreEntry
  deriving DecidableEq

/-- The batching loop of embed_and_index (src/app.py lines 181-186): take the
next batch_size chunks, embed their contents, append the vectors to the index
and the corresponding records to the store, repeat on the rest.  The embedding
model is `embed`, applied pointwise (model.encode maps over the batch).  The
fuel argument makes the recursion structural; it is initialized to the length
of the chunk list, which every run strictly exceeds in steps taken, so the
fuel-exhausted case is unreachable. -/
def indexLoopF {V : Type} (embed : String → V) (batch_size : Nat) :
    Nat → List DocumentChunk → SearchState V → SearchState V
  | _, [], st => st
  | 0, _ :: _, st => st
  | fuel + 1, c :: rest, st =>
    indexLoopF embed batch_size fuel (rest.drop (batch_size - 1))
      ⟨st.faiss_index ++ (c :: rest.take (batch_size - 1)).map (fun ch => embed ch.content),
       st.document_store ++ (c :: rest.take (batch_size - 1)).map toEntry⟩

/-- The batching loop started with sufficient fuel. -/
def indexLoop {V : Type} (embed : String → V) (batch_size : Nat)
    (l : List DocumentChunk) (st : SearchState V) : SearchState V :=
  indexLoopF embed batch_size l.length l st

/-- SemanticSearchService.embed_and_index (src/app.py lines 173-186): returns
unchanged on an empty chunk list (line 175) BEFORE the reset of line 176;
otherwise resets the index and store and runs the batching loop.  The code is
called with batch_size = 8. -/
def SemanticSearchService.embed_and_index {V : Type} (embed : String → V) (batch_size : Nat)
    (chunks : List DocumentChunk) (st : SearchState V) : SearchState V :=
  if chunks.isEmpty then st
  else indexLoop embed batch_size chunks ⟨[], []⟩

/-- Modelled from the spec's words for the refinement claim: the same indexing
operation processing all chunks in one single batch (reset, then embed and
append everything at once). -/
def embed_and_index_singleBatch {V : Type} (embed : String → V)
    (chunks : List DocumentChunk) (st : SearchState V) : SearchState V :=
  if chunks.isEmpty then st
  else ⟨chunks.map (fun ch => embed ch.content), chunks.map toEntry⟩

/-- Fallible variant of the batching loop, for the behaviour when model.encode
raises: the batch oracle `encodeB` either returns the batch's vectors or an
error.  The returned pair carries the (global, destructively updated) state as
it is left when the exception propagates, plus the propagated error if any. -/
def indexLoopEF {V E : Type} (encodeB : List String → Except E (List V)) (batch_size : Nat) :
    Nat → List DocumentChunk → SearchState V → SearchState V × Option E
  | _, [], st => (st, none)
  | 0, _ :: _, st => (st, none)
  | fuel + 1, c :: rest, st =>
    match encodeB ((c :: rest.take (batch_size - 1)).map (fun ch => ch.content)) with
    | .error e => (st, some e)
    | .ok vs =>
      indexLoopEF encodeB batch_size fuel (rest.drop (batch_size - 1))
        ⟨st.faiss_index ++ vs,
         st.document_store ++ (c :: rest.take (batch_size - 1)).map toEntry⟩

/-- The fallible batching loop started with sufficient fuel. -/
def indexLoopE {V E : Type} (encodeB : List String → Except E (List V)) (batch_size : Nat)
    (l : List DocumentChunk) (st : SearchState V) : SearchState V × Option E :=
  indexLoopEF encodeB batch_size l.length l st

/-- embed_and_index with a fallible embedding step (src/app.py lines 173-186):
empty input returns before the reset; otherwise the state is cleared and the
batching loop runs until done or until a batch's embedding raises. -/
def embed_and_indexE {V E : Type} (encodeB : List String → Except E (List V)) (batch_size : Nat)
    (chunks : List DocumentChunk) (st : SearchState V) : SearchState V × Option E :=
  if chunks.isEmpty then (st, none)
  else indexLoopE encodeB batch_size chunks ⟨[], []⟩

/-- The index/store alignment invariant: vector i is the embedding of the
content stored at position i. -/
def Aligned {V : Type} (embed : String → V) (st : SearchState V) : Prop :=
  st.faiss_index = st.document_store.map (fun e => embed e.content)

/-- Comparison by distance, the order in which FAISS returns neighbours. -/
def distLE (a b : ℚ × Int) : Prop := a.1 ≤ b.1

instance : DecidableRel distLE := fun a b => inferInstanceAs (Decidable (a.1 ≤ b.1))

instance : IsTotal (ℚ × Int) distLE := ⟨fun a b => le_total a.1 b.1⟩

instance : IsTrans (ℚ × Int) distLE := ⟨fun _ _ _ h h2 => le_trans h h2⟩

/-- Distance of the query to every stored vector, tagged with its index
position (as the int64 values FAISS reports). -/
def distListFrom {V : Type} (d : V → V → ℚ) (qv : V) : Int → List V → List (ℚ × Int)
  | _, [] => []
  | i, v :: vs => (d qv v, i) :: distListFrom d qv (i + 1) vs

/-- Model of faiss.IndexFlatL2.search for one query: the k nearest stored
vectors, closest (smallest distance) first, each with its index position. -/
def faissSearch {V : Type} (d : V → V → ℚ) (index : List V) (qv : V) (k : Nat) : List (ℚ × Int) :=
  (List.insertionSort distLE (distListFrom d qv 0 index)).take k

/-- ClauseMatch (src/app.py line 99). -/
structure ClauseMatch where
  content : String
  similarity_score : ℚ
  deriving DecidableEq

/-- SemanticSearchService.search (src/app.py lines 190-195): empty result on an
empty index; otherwise ask FAISS for min(top_k, ntotal) neighbours, drop the -1
sentinel positions, and map each position back to the stored content, reporting
the raw distance as similarity_score. -/
def SemanticSearchService.search {V : Type} (d : V → V → ℚ) (st : SearchState V)
    (qv : V) (top_k : Nat) : List ClauseMatch :=
  if st.faiss_index.length = 0 then []
  else
    ((faissSearch d st.faiss_index qv (min top_k st.faiss_index.length)).filter
        (fun p => p.2 != -1)).map
      (fun p => ⟨(st.document_store.getD p.2.toNat ⟨"", 0, ""⟩).content, p.1⟩)

/-- True when "429" occurs in the exception message (src/app.py line 227). -/
def isPrefList : List Char → List Char → Bool
  | [], _ => true
  | _ :: _, [] => false
  | a :: as, b :: bs => a == b && isPrefList as bs

/-- Whether `needle` occurs as a contiguous run inside `hay`. -/
def containsSeq (needle : List Char) : List Char → Bool
  | [] => needle.isEmpty
  | c :: rest => isPrefList needle (c :: rest) || containsSeq needle rest

/-- Python's "429" in str(e). -/
def has429 (msg : String) : Bool := containsSeq "429".data msg.data

/-- Post-processing of a successful model response (src/app.py line 225):
strip, replace newlines by spaces, split on whitespace, re-join with single
spaces. -/
def normalizeAnswer (s : String) : String :=
  joinSpace ((splitWordsAux (replaceNl (stripChars s.data)) []).map String.mk)

/-- Observable outcome of one generate_answer call: the returned string, the
asyncio.sleep durations performed (in order), and how many model calls were
made. -/
structure GenOutcome where
  answer : String
  waits : List ℚ
  attempts : Nat
  deriving DecidableEq

/-- The retry loop of generate_answer (src/app.py lines 222-232): `attempt` is
the loop variable of `for attempt in range(3)` and `left` the number of loop
iterations remaining; `gen` yields each attempt's model-call result and
`jitter` each attempt's np.random.uniform(0, 1) draw.  Falling out of the loop
returns the line-232 string. -/
def genLoop (gen : Nat → Except String String) (jitter : Nat → ℚ) : Nat → Nat → GenOutcome
  | _, 0 => ⟨"Failed to generate an answer after multiple retries.", [], 0⟩
  | attempt, left + 1 =>
    match gen attempt with
    | .ok text => ⟨normalizeAnswer text, [], 1⟩
    | .error e =>
      if has429 e ∧ attempt < 2 then
        let r := genLoop gen jitter (attempt + 1) left
        ⟨r.answer, ((2 : ℚ) ^ attempt + jitter attempt) :: r.waits, r.attempts + 1⟩
      else ⟨"An error occurred while generating the answer.", [], 1⟩

/-- LLMService.generate_answer (src/app.py lines 219-232).  The function is
total: every control path yields a string, no exception escapes. -/
def LLMService.generate_answer (gen : Nat → Except String String) (jitter : Nat → ℚ)
    (relevant_chunks : List ClauseMatch) : GenOutcome :=
  if relevant_chunks.isEmpty then
    ⟨"The provided document does not contain information relevant to this question.", [], 0⟩
  else genLoop gen jitter 0 3

/-- LLMService._process_one (src/app.py lines 241-243): search with top_k = 8,
then synthesize.  The per-question model oracle and jitter are indexed by the
question text. -/
def LLMService.processOne {V : Type} (d : V → V → ℚ) (embedQ : String → V)
    (gen : String → Nat → Except String String) (jitter : String → Nat → ℚ)
    (st : SearchState V) (q : String) : String :=
  (LLMService.generate_answer (gen q) (jitter q)
    (SemanticSearchService.search d st (embedQ q) 8)).answer

/-- LLMService.process_all_queries (src/app.py lines 234-239): answers each
query in input order, appending each answer to the output list. -/
def LLMService.process_all_queries {V : Type} (d : V → V → ℚ) (embedQ : String → V)
    (gen : String → Nat → Except String String) (jitter : String → Nat → ℚ)
    (st : SearchState V) : List String → List String
  | [] => []
  | q :: rest =>
    LLMService.processOne d embedQ gen jitter st q ::
      LLMService.process_all_queries d embedQ gen jitter st rest

/-- Closed form of the batching loop (with enough fuel): it appends the
embeddings and store records of all remaining chunks, in order, whatever the
batch size. -/
theorem indexLoopF_eq {V : Type} (embed : String → V) (bs : Nat) :
    ∀ (fuel : Nat) (l : List DocumentChunk) (st : SearchState V), l.length ≤ fuel →
      indexLoopF embed bs fuel l st =
        ⟨st.faiss_index ++ l.map (fun ch => embed ch.content),
         st.document_store ++ l.map toEntry⟩ := by
  intro fuel
  induction fuel with
  | zero =>
    intro l st h
    match l with
    | [] => simp [indexLoopF]
    | c :: rest => simp at h
  | succ n ih =>
    intro l st h
    match l with
    | [] => simp [indexLoopF]
    | c :: rest =>
      rw [indexLoopF, ih (rest.drop (bs - 1)) _ (by simp only [List.length_drop]; simp at h; omega)]
      have hcat : (c :: rest.take (bs - 1)) ++ rest.drop (bs - 1) = c :: rest := by simp
      congr 1
      · rw [List.append_assoc, ← List.map_append, hcat]
      · rw [List.append_assoc, ← List.map_append, hcat]

/-- Closed form of the batching loop as started by embed_and_index. -/
theorem indexLoop_eq {V : Type} (embed : String → V) (bs : Nat)
    (l : List DocumentChunk) (st : SearchState V) :
    indexLoop embed bs l st =
      ⟨st.faiss_index ++ l.map (fun ch => embed ch.content),
       st.document_store ++ l.map toEntry⟩ :=
  indexLoopF_eq embed bs l.length l st (Nat.le_refl _)

/-- Claim C1 (amended): embed_and_index called with an empty chunk sequence
returns before the reset, so it leaves the vector index and the document store
exactly as they were; the index is empty afterwards only if it was empty
before. -/
theorem C1_empty_chunks_leaves_state_unchanged {V : Type} (embed : String → V)
    (batch_size : Nat) (st : SearchState V) :
    SemanticSearchService.embed_and_index embed batch_size [] st = st := by
  simp [SemanticSearchService.embed_and_index]

/-- Claim C1 counterexample: starting from a prior state holding one vector and
one document-store entry, embed_and_index with an empty chunk sequence does NOT
leave the index empty — the early return at src/app.py line 175 precedes the
reset at line 176, so the prior contents survive. -/
theorem C1_counterexample :
    ¬((SemanticSearchService.embed_and_index (fun _ => ()) 8 []
          ⟨[()], [⟨"old", 0, "s"⟩]⟩).faiss_index.length = 0 ∧
      (SemanticSearchService.embed_and_index (fun _ => ()) 8 []
          ⟨[()], [⟨"old", 0, "s"⟩]⟩).document_store.length = 0) := by
  decide

/-- Nine chunks: the first batch of 8 succeeds, the second fails. -/
def c2Chunks : List DocumentChunk :=
  (List.range 9).map (fun i => ⟨"c" ++ toString i, i, "u"⟩)

/-- A batch embedding oracle that raises exactly on the batch holding "c8". -/
def c2Encode : List String → Except Unit (List Unit) :=
  fun ts => if ts.contains "c8" then .error () else .ok (ts.map fun _ => ())

/-- Claim C2: evaluation of embed_and_index at the failing input.  With nine
chunks and an embedding step that raises on the second batch, the exception
propagates (the error is returned to the request boundary) but the vector
index and document store are left holding the 8 records of the first batch —
a half-populated, not cleared, state.  This contradicts the claim (and the
spec's stated invariant), exhibiting the code bug. -/
theorem C2_mid_batch_failure_leaves_partial_index :
    (embed_and_indexE c2Encode 8 c2Chunks ⟨[], []⟩).2 = some () ∧
    (embed_and_indexE c2Encode 8 c2Chunks ⟨[], []⟩).1.document_store.length = 8 ∧
    (embed_and_indexE c2Encode 8 c2Chunks ⟨[], []⟩).1.faiss_index.length = 8 := by
  decide

/-- Claim C4: after every completed embed_and_index call (batch size 8, as the
code calls it), the number of vectors in the index equals the number of
document-store entries, the alignment invariant holds, and for a non-empty
chunk list the store entry at every position i carries the content and
metadata of the chunk whose embedding was added to the index at position i.
The hypothesis says the prior state already satisfies the alignment invariant,
which every reachable state does (the initial state is empty and only
embed_and_index writes). -/
theorem C4_index_store_alignment {V : Type} (embed : String → V)
    (chunks : List DocumentChunk) (st : SearchState V) (hst : Aligned embed st) :
    (SemanticSearchService.embed_and_index embed 8 chunks st).faiss_index.length =
      (SemanticSearchService.embed_and_index embed 8 chunks st).document_store.length ∧
    Aligned embed (SemanticSearchService.embed_and_index embed 8 chunks st) ∧
    (chunks ≠ [] →
      (SemanticSearchService.embed_and_index embed 8 chunks st).document_store =
        chunks.map toEntry ∧
      (SemanticSearchService.embed_and_index embed 8 chunks st).faiss_index =
        chunks.map (fun c => embed c.content) ∧
      ∀ i : Nat,
        (SemanticSearchService.embed_and_index embed 8 chunks st).document_store[i]? =
          (chunks[i]?).map toEntry ∧
        (SemanticSearchService.embed_and_index embed 8 chunks st).faiss_index[i]? =
          (chunks[i]?).map (fun c => embed c.content)) := by
  match chunks with
  | [] =>
    refine ⟨?_, ?_, fun h => absurd rfl h⟩
    · simp only [SemanticSearchService.embed_and_index, List.isEmpty_nil, if_true]
      rw [hst, List.length_map]
    · simpa [SemanticSearchService.embed_and_index] using hst
  | c :: rest =>
    have hrun : SemanticSearchService.embed_and_index embed 8 (c :: rest) st =
        ⟨(c :: rest).map (fun ch => embed ch.content), (c :: rest).map toEntry⟩ := by
      rw [SemanticSearchService.embed_and_index]
      simp only [List.isEmpty_cons, Bool.false_eq_true, if_false]
      simpa using indexLoop_eq embed 8 (c :: rest) ⟨[], []⟩
    refine ⟨?_, ?_, fun _ => ⟨?_, ?_, ?_⟩⟩
    · simp [hrun]
    · simp only [Aligned, hrun, List.map_map]
      rfl
    · simp [hrun]
    · simp [hrun]
    · intro i
      rw [hrun]
      exact ⟨List.getElem?_map toEntry (c :: rest) i,
             List.getElem?_map (fun ch => embed ch.content) (c :: rest) i⟩

/-- Witness for C4 at a concrete input: one chunk indexed from the empty
(aligned) prior state. -/
theorem C4_index_store_alignment_witness :
    (SemanticSearchService.embed_and_index (fun _ => ()) 8 [⟨"hi there", 0, "s"⟩]
        ⟨[], []⟩).faiss_index.length =
      (SemanticSearchService.embed_and_index (fun _ => ()) 8 [⟨"hi there", 0, "s"⟩]
        ⟨[], []⟩).document_store.length ∧
    (SemanticSearchService.embed_and_index (fun _ => ()) 8 [⟨"hi there", 0, "s"⟩]
        ⟨[], []⟩).document_store[0]? = some ⟨"hi there", 0, "s"⟩ := by
  have h := C4_index_store_alignment (fun _ => ()) [⟨"hi there", 0, "s"⟩] ⟨[], []⟩ rfl
  refine ⟨h.1, ?_⟩
  rw [((h.2.2 (by simp)).2.2 0).1]
  rfl

/-- Claim C9: for a non-empty chunk list, embed_and_index with the code's
batch size of 8 produces exactly the state produced by processing all chunks
in one single batch (both through the same loop with batch size = the number
of chunks, and through the spec-worded single-pass definition); the embedding
of each text is a pure function of that text by construction of the model. -/
theorem C9_batching_has_no_semantic_effect {V : Type} (embed : String → V)
    (chunks : List DocumentChunk) (st : SearchState V) (hne : chunks ≠ []) :
    SemanticSearchService.embed_and_index embed 8 chunks st =
      SemanticSearchService.embed_and_index embed chunks.length chunks st ∧
    SemanticSearchService.embed_and_index embed 8 chunks st =
      embed_and_index_singleBatch embed chunks st := by
  have he : chunks.isEmpty = false := by
    cases chunks with
    | nil => exact absurd rfl hne
    | cons c rest => rfl
  rw [SemanticSearchService.embed_and_index, SemanticSearchService.embed_and_index,
    embed_and_index_singleBatch, he]
  simp only [Bool.false_eq_true, if_false]
  rw [indexLoop_eq, indexLoop_eq]
  simp

/-- Witness for C9 at a concrete input: two chunks, a non-trivial prior state
(which is discarded by the reset either way). -/
theorem C9_batching_has_no_semantic_effect_witness :
    SemanticSearchService.embed_and_index (fun s => s.length) 8
        [⟨"a b", 0, "s"⟩, ⟨"c d e", 1, "s"⟩] ⟨[9], [⟨"o", 0, "z"⟩]⟩ =
      SemanticSearchService.embed_and_index (fun s => s.length)
        ([⟨"a b", 0, "s"⟩, ⟨"c d e", 1, "s"⟩] : List DocumentChunk).length
        [⟨"a b", 0, "s"⟩, ⟨"c d e", 1, "s"⟩] ⟨[9], [⟨"o", 0, "z"⟩]⟩ ∧
    SemanticSearchService.embed_and_index (fun s => s.length) 8
        [⟨"a b", 0, "s"⟩, ⟨"c d e", 1, "s"⟩] ⟨[9], [⟨"o", 0, "z"⟩]⟩ =
      embed_and_index_singleBatch (fun s => s.length)
        [⟨"a b", 0, "s"⟩, ⟨"c d e", 1, "s"⟩] ⟨[9], [⟨"o", 0, "z"⟩]⟩ :=
  C9_batching_has_no_semantic_effect (fun s => s.length)
    [⟨"a b", 0, "s"⟩, ⟨"c d e", 1, "s"⟩] ⟨[9], [⟨"o", 0, "z"⟩]⟩ (by simp)

set_option maxRecDepth 100000

/-- The chunks list only ever grows at its front: the accumulator factors out
of the packing loop. -/
theorem packLoop_append_acc (k : Nat) :
    ∀ (cs cur : List String) (len : Nat) (acc : List (List String)),
      packLoop k cs cur len acc = acc ++ packLoop k cs cur len [] := by
  intro cs
  induction cs with
  | nil =>
    intro cur len acc
    by_cases h : cur.isEmpty <;> simp [packLoop, h]
  | cons s rest ih =>
    intro cur len acc
    by_cases h : len + wc s ≤ k
    · simp only [packLoop, if_pos h]
      exact ih _ _ acc
    · simp only [packLoop, if_neg h, List.nil_append]
      rw [ih _ _ (acc ++ [cur]), ih _ _ [cur], List.append_assoc]

/-- Coverage: concatenating the emitted groups yields exactly the already
emitted sentences, the in-progress group and the remaining input. -/
theorem packLoop_flatten (k : Nat) :
    ∀ (cs cur : List String) (len : Nat) (acc : List (List String)),
      (packLoop k cs cur len acc).flatten = acc.flatten ++ cur ++ cs := by
  intro cs
  induction cs with
  | nil =>
    intro cur len acc
    by_cases h : cur.isEmpty
    · rw [List.isEmpty_iff.mp h]
      simp [packLoop, h]
    · simp [packLoop, h]
  | cons s rest ih =>
    intro cur len acc
    by_cases h : len + wc s ≤ k
    · simp only [packLoop, if_pos h]
      rw [ih]
      simp
    · simp only [packLoop, if_neg h]
      rw [ih]
      simp

/-- When the in-progress group already exceeds the budget, it is the very next
group emitted: no later sentence can ever join it. -/
theorem packLoop_overflow_head (k : Nat) (cs : List String) (cur : List String) (len : Nat)
    (hlen : k < len) (hcur : cur ≠ []) :
    ∃ L, packLoop k cs cur len [] = cur :: L := by
  cases cs with
  | nil =>
    refine ⟨[], ?_⟩
    have h : cur.isEmpty = false := by
      cases cur with
      | nil => exact absurd rfl hcur
      | cons a as => rfl
    simp [packLoop, h]
  | cons t ts =>
    have hno : ¬(len + wc t ≤ k) := by omega
    refine ⟨packLoop k ts [t] (wc t) [], ?_⟩
    rw [packLoop, if_neg hno, packLoop_append_acc]
    simp

/-- Budget invariant of the packing loop: every emitted group of two or more
sentences stays within the word budget, because its second and later sentences
were only admitted under the budget test. -/
theorem packLoop_bounded (k : Nat) :
    ∀ (cs cur : List String) (len : Nat) (acc : List (List String)),
      len = sumWc cur →
      (∀ g ∈ acc, 2 ≤ g.length → sumWc g ≤ k) →
      (2 ≤ cur.length → sumWc cur ≤ k) →
      ∀ g ∈ packLoop k cs cur len acc, 2 ≤ g.length → sumWc g ≤ k := by
  intro cs
  induction cs with
  | nil =>
    intro cur len acc _ hacc hcur g hg
    by_cases h : cur.isEmpty
    · rw [packLoop] at hg
      simp only [h, if_true] at hg
      exact hacc g hg
    · rw [packLoop] at hg
      simp only [h, Bool.false_eq_true, if_false] at hg
      rcases List.mem_append.mp hg with h1 | h2
      · exact hacc g h1
      · have : g = cur := by simpa using h2
        subst this
        exact hcur
  | cons s rest ih =>
    intro cur len acc hlen hacc hcur g hg
    subst hlen
    by_cases h : sumWc cur + wc s ≤ k
    · rw [packLoop, if_pos h] at hg
      have hsum : sumWc cur + wc s = sumWc (cur ++ [s]) := by simp [sumWc]
      rw [hsum] at hg
      refine ih (cur ++ [s]) _ acc rfl hacc (fun _ => ?_) g hg
      · rw [← hsum]
        exact h
    · rw [packLoop, if_neg h] at hg
      have hsw : wc s = sumWc [s] := by simp [sumWc]
      rw [hsw] at hg
      refine ih [s] _ (acc ++ [cur]) rfl ?_ ?_ g hg
      · intro g' hg'
        rcases List.mem_append.mp hg' with h1 | h2
        · exact hacc g' h1
        · have : g' = cur := by simpa using h2
          subst this
          exact hcur
      · intro habs
        simp at habs

/-- A sentence over the budget always ends up alone in its own group. -/
theorem packLoop_overlong_alone (k : Nat) :
    ∀ (cs cur : List String) (len : Nat) (acc : List (List String)) (s : String),
      s ∈ cs → k < wc s → [s] ∈ packLoop k cs cur len acc := by
  intro cs
  induction cs with
  | nil =>
    intro cur len acc s hs
    exact absurd hs (List.not_mem_nil s)
  | cons t ts ih =>
    intro cur len acc s hs hk
    rcases List.mem_cons.mp hs with rfl | hmem
    · have hno : ¬(len + wc s ≤ k) := by omega
      rw [packLoop, if_neg hno]
      obtain ⟨L, hL⟩ := packLoop_overflow_head k ts [s] (wc s) hk (by simp)
      rw [packLoop_append_acc, hL]
      simp
    · by_cases h : len + wc t ≤ k
      · rw [packLoop, if_pos h]
        exact ih _ _ _ s hmem hk
      · rw [packLoop, if_neg h]
        exact ih _ _ _ s hmem hk

/-- The contents of the produced chunks are the groups joined with spaces. -/
theorem assignIds_map_content (src : String) :
    ∀ (i : Nat) (L : List (List String)),
      (assignIds src i L).map DocumentChunk.content = L.map joinSpace := by
  intro i L
  induction L generalizing i with
  | nil => simp [assignIds]
  | cons g gs ih => simp [assignIds, ih]

/-- Claim C6 counterexample: the text "abcdefghij" is a single split segment
whose trimmed length is exactly 10 characters, yet it is discarded — the
filter at src/app.py line 150 keeps a segment only when its trimmed length is
strictly greater than 10, so a segment of trimmed length 10 never reaches the
chunk sequence, contradicting the claim that every segment of trimmed length
at least 10 is kept. -/
theorem C6_counterexample :
    splitIntoSentences "abcdefghij" = ["abcdefghij"] ∧
    (pyStrip "abcdefghij").length = 10 ∧
    keptSentences "abcdefghij" = [] ∧
    DocumentProcessor.sentence_aware_chunking "abcdefghij" "src" = [] := by
  decide

/-- Claim C6 (amended): a split segment is discarded exactly when its trimmed
length is at most 10 characters; every segment whose trimmed length is 11
characters or more is kept (its stripped form enters the sentence list that
drives packing) and contributes to the produced chunk sequence. -/
theorem C6_segment_length_filter (text : String) (s : String)
    (hs : s ∈ splitIntoSentences text) :
    (pyStrip s ∈ keptSentences text ↔ 10 < (pyStrip s).length) ∧
    (10 < (pyStrip s).length → ∃ g ∈ packChunks text, pyStrip s ∈ g) := by
  have hkept : 10 < (pyStrip s).length → pyStrip s ∈ keptSentences text := by
    intro hlen
    exact List.mem_filter.mpr ⟨List.mem_map_of_mem pyStrip hs, by simpa using hlen⟩
  refine ⟨⟨?_, hkept⟩, ?_⟩
  · intro hmem
    have := (List.mem_filter.mp hmem).2
    simpa using this
  · intro hlen
    have hflat : (packChunks text).flatten = keptSentences text := by
      simpa using packLoop_flatten 256 (keptSentences text) [] 0 []
    refine List.mem_flatten.mp ?_
    rw [hflat]
    exact hkept hlen

/-- Witness for C6 at a concrete input: the first segment of the text has
trimmed length 19 > 10, so it is kept and appears in a packed group. -/
theorem C6_segment_length_filter_witness :
    "Hi there my friend." ∈ keptSentences "Hi there my friend. Ok." ∧
    ∃ g ∈ packChunks "Hi there my friend. Ok.", "Hi there my friend." ∈ g := by
  have h := C6_segment_length_filter "Hi there my friend. Ok." "Hi there my friend."
    (by decide)
  have hps : pyStrip "Hi there my friend." = "Hi there my friend." := by decide
  have hlen : 10 < (pyStrip "Hi there my friend.").length := by decide
  constructor
  · rw [← hps]
    exact h.1.mpr hlen
  · rw [← hps]
    exact h.2 hlen

/-- Claim C7: every packed group with two or more sentences has total word
count at most 256, and a kept sentence whose word count exceeds 256 is never
split or truncated — it forms a group of its own, and the chunk sequence
contains a chunk whose content is exactly that sentence. -/
theorem C7_chunk_word_budget (text : String) (src : String) :
    (∀ g ∈ packChunks text, 2 ≤ g.length → sumWc g ≤ 256) ∧
    (∀ s ∈ keptSentences text, 256 < wc s →
      [s] ∈ packChunks text ∧
      ∃ c ∈ DocumentProcessor.sentence_aware_chunking text src, c.content = s) := by
  constructor
  · intro g hg
    exact packLoop_bounded 256 (keptSentences text) [] 0 [] rfl
      (by simp) (fun h => absurd h (by simp)) g hg
  · intro s hs hk
    have hmem : [s] ∈ packChunks text :=
      packLoop_overlong_alone 256 (keptSentences text) [] 0 [] s hs hk
    refine ⟨hmem, ?_⟩
    have hcont : joinSpace [s] ∈
        (DocumentProcessor.sentence_aware_chunking text src).map DocumentChunk.content := by
      rw [DocumentProcessor.sentence_aware_chunking, assignIds_map_content]
      exact List.mem_map_of_mem joinSpace hmem
    obtain ⟨c, hc, hceq⟩ := List.mem_map.mp hcont
    exact ⟨c, hc, hceq⟩

/-- A 257-word sentence (and hence over the 256-word budget), with no internal
sentence boundary. -/
def bigSentence : String := joinSpace (List.replicate 257 "a")

/-- Text whose first two kept sentences fit one chunk and whose third exceeds
the word budget. -/
def c7Text : String := "Hello there friend. Nice to see you. " ++ bigSentence

/-- Witness for C7 at a concrete input: the two short sentences form a group
of two sentences within budget, and the 257-word sentence is emitted alone. -/
theorem C7_chunk_word_budget_witness :
    sumWc ["Hello there friend.", "Nice to see you."] ≤ 256 ∧
    [bigSentence] ∈ packChunks c7Text ∧
    ∃ c ∈ DocumentProcessor.sentence_aware_chunking c7Text "u", c.content = bigSentence := by
  have h := C7_chunk_word_budget c7Text "u"
  have h2 := h.2 bigSentence (by decide) (by decide)
  exact ⟨h.1 ["Hello there friend.", "Nice to see you."] (by decide) (by decide),
         h2.1, h2.2⟩

/-- Claim C10: when the first kept sentence of the text exceeds the 256-word
budget, the chunker's very first append happens with current_chunk_sentences
still empty, so the public output starts with a chunk whose content is the
empty string and chunk_id 0, followed by the chunk holding exactly that
over-long sentence. -/
theorem C10_leading_empty_chunk (text : String) (src : String) (s : String)
    (rest : List String) (hks : keptSentences text = s :: rest) (hk : 256 < wc s) :
    ∃ tail, DocumentProcessor.sentence_aware_chunking text src =
      ⟨"", 0, src⟩ :: ⟨s, 1, src⟩ :: tail := by
  have hno : ¬(0 + wc s ≤ 256) := by omega
  obtain ⟨L, hL⟩ := packLoop_overflow_head 256 rest [s] (wc s) hk (by simp)
  have h1 : packChunks text = [] :: [s] :: L := by
    rw [packChunks, hks, packLoop, if_neg hno, packLoop_append_acc, hL]
    simp
  refine ⟨assignIds src 2 L, ?_⟩
  rw [DocumentProcessor.sentence_aware_chunking, h1, assignIds, assignIds]
  rfl

/-- Witness for C10 at a concrete input: a document whose single kept sentence
has 257 words produces a leading chunk with empty content. -/
theorem C10_leading_empty_chunk_witness :
    ∃ tail, DocumentProcessor.sentence_aware_chunking bigSentence "u" =
      ⟨"", 0, "u"⟩ :: ⟨bigSentence, 1, "u"⟩ :: tail :=
  C10_leading_empty_chunk bigSentence "u" bigSentence [] (by decide) (by decide)

/-- One-step unfolding of the retry loop. -/
theorem genLoop_succ (gen : Nat → Except String String) (jitter : Nat → ℚ)
    (attempt left : Nat) :
    genLoop gen jitter attempt (left + 1) =
      match gen attempt with
      | .ok text => ⟨normalizeAnswer text, [], 1⟩
      | .error e =>
        if has429 e ∧ attempt < 2 then
          let r := genLoop gen jitter (attempt + 1) left
          ⟨r.answer, ((2 : ℚ) ^ attempt + jitter attempt) :: r.waits, r.attempts + 1⟩
        else ⟨"An error occurred while generating the answer.", [], 1⟩ := rfl

/-- Claim C3: with retrieved chunks present, (a) if every model call raises a
rate-limit (429) error, generate_answer makes exactly 3 attempts, sleeps
2^attempt + jitter(attempt) before the second and third attempts (at least
1 + 2 = 3 seconds in total when the jitter is non-negative), and then returns
the fixed failure string; (b) on a first-attempt exception whose message does
not contain "429" it returns the fixed error sentence immediately after a
single attempt, with no waiting.  generate_answer is a total function of its
oracles, so no exception ever propagates to the caller. -/
theorem C3_retry_policy (gen : Nat → Except String String) (jitter : Nat → ℚ)
    (chunks : List ClauseMatch) (hne : chunks ≠ []) :
    ((∀ n, n < 3 → ∃ e, gen n = .error e ∧ has429 e = true) →
      (LLMService.generate_answer gen jitter chunks).attempts = 3 ∧
      (LLMService.generate_answer gen jitter chunks).answer =
        "An error occurred while generating the answer." ∧
      (LLMService.generate_answer gen jitter chunks).waits =
        [1 + jitter 0, 2 + jitter 1] ∧
      (0 ≤ jitter 0 → 0 ≤ jitter 1 →
        3 ≤ ((LLMService.generate_answer gen jitter chunks).waits).sum)) ∧
    (∀ e, gen 0 = .error e → has429 e = false →
      (LLMService.generate_answer gen jitter chunks).attempts = 1 ∧
      (LLMService.generate_answer gen jitter chunks).answer =
        "An error occurred while generating the answer." ∧
      (LLMService.generate_answer gen jitter chunks).waits = []) := by
  have hie : chunks.isEmpty = false := by
    cases chunks with
    | nil => exact absurd rfl hne
    | cons c rest => rfl
  have hga : LLMService.generate_answer gen jitter chunks = genLoop gen jitter 0 3 := by
    rw [LLMService.generate_answer, hie]
    simp
  constructor
  · intro h429
    obtain ⟨e0, he0, h4290⟩ := h429 0 (by omega)
    obtain ⟨e1, he1, h4291⟩ := h429 1 (by omega)
    obtain ⟨e2, he2, h4292⟩ := h429 2 (by omega)
    have hrun : genLoop gen jitter 0 3 =
        ⟨"An error occurred while generating the answer.",
         [(2 : ℚ) ^ 0 + jitter 0, (2 : ℚ) ^ 1 + jitter 1], 3⟩ := by
      have h3 : (3 : Nat) = 2 + 1 := rfl
      have h2 : (2 : Nat) = 1 + 1 := rfl
      have h1 : (1 : Nat) = 0 + 1 := rfl
      rw [h3, genLoop_succ, he0]
      simp only []
      rw [if_pos ⟨h4290, by omega⟩, h2, genLoop_succ, he1]
      simp only []
      rw [if_pos ⟨h4291, by omega⟩, h1, genLoop_succ, he2]
      simp only []
      rw [if_neg (by omega)]
    rw [hga, hrun]
    refine ⟨rfl, rfl, by norm_num, ?_⟩
    intro hj0 hj1
    simp only [List.sum_cons, List.sum_nil]
    have : (2 : ℚ) ^ 0 = 1 := by norm_num
    rw [this]
    have : (2 : ℚ) ^ 1 = 2 := by norm_num
    rw [this]
    linarith
  · intro e he hnot
    have hrun : genLoop gen jitter 0 3 =
        ⟨"An error occurred while generating the answer.", [], 1⟩ := by
      have h3 : (3 : Nat) = 2 + 1 := rfl
      rw [h3, genLoop_succ, he]
      simp only []
      rw [if_neg (by simp [hnot])]
    rw [hga, hrun]
    exact ⟨rfl, rfl, rfl⟩

/-- A model oracle that raises a rate-limit error on every attempt. -/
def c3gen429 : Nat → Except String String := fun _ => .error "HTTP 429 quota exceeded"

/-- A model oracle that raises a non-rate-limit error. -/
def c3genOther : Nat → Except String String := fun _ => .error "boom"

/-- Witness for C3 at concrete inputs: an always-429 oracle yields 3 attempts,
waits [1, 2] and the fixed failure string; a non-429 oracle yields a single
attempt. -/
theorem C3_retry_policy_witness :
    (LLMService.generate_answer c3gen429 (fun _ => 0) [⟨"t", 0⟩]).attempts = 3 ∧
    (LLMService.generate_answer c3gen429 (fun _ => 0) [⟨"t", 0⟩]).answer =
      "An error occurred while generating the answer." ∧
    (LLMService.generate_answer c3gen429 (fun _ => 0) [⟨"t", 0⟩]).waits =
      [1 + (0 : ℚ), 2 + (0 : ℚ)] ∧
    3 ≤ ((LLMService.generate_answer c3gen429 (fun _ => 0) [⟨"t", 0⟩]).waits).sum ∧
    (LLMService.generate_answer c3genOther (fun _ => 0) [⟨"t", 0⟩]).attempts = 1 ∧
    (LLMService.generate_answer c3genOther (fun _ => 0) [⟨"t", 0⟩]).waits = [] := by
  have h1 := (C3_retry_policy c3gen429 (fun _ => 0) [⟨"t", 0⟩] (by simp)).1
    (fun n _ => ⟨"HTTP 429 quota exceeded", rfl, by decide⟩)
  have h2 := (C3_retry_policy c3genOther (fun _ => 0) [⟨"t", 0⟩] (by simp)).2
    "boom" rfl (by decide)
  exact ⟨h1.1, h1.2.1, h1.2.2.1, h1.2.2.2 le_rfl le_rfl, h2.1, h2.2.2⟩

/-- Claim C5: process_all_queries returns one answer per question, in input
order: the output has the same length as the input and its i-th element is the
(total, never-throwing) per-question pipeline applied to the i-th question, so
one question's soft failure can only affect its own slot and the batch is
never aborted or reordered. -/
theorem C5_order_preserving_batch {V : Type} (d : V → V → ℚ) (embedQ : String → V)
    (gen : String → Nat → Except String String) (jitter : String → Nat → ℚ)
    (st : SearchState V) (queries : List String) :
    (LLMService.process_all_queries d embedQ gen jitter st queries).length =
      queries.length ∧
    ∀ i : Nat,
      (LLMService.process_all_queries d embedQ gen jitter st queries)[i]? =
        (queries[i]?).map (LLMService.processOne d embedQ gen jitter st) := by
  induction queries with
  | nil => exact ⟨rfl, fun i => by simp [LLMService.process_all_queries]⟩
  | cons q rest ih =>
    refine ⟨?_, ?_⟩
    · simpa [LLMService.process_all_queries] using ih.1
    · intro i
      match i with
      | 0 => simp [LLMService.process_all_queries]
      | i + 1 =>
        simpa [LLMService.process_all_queries] using ih.2 i

/-- The tagged distance list has one entry per stored vector. -/
theorem distListFrom_length {V : Type} (d : V → V → ℚ) (qv : V) :
    ∀ (l : List V) (i : Int), (distListFrom d qv i l).length = l.length := by
  intro l
  induction l with
  | nil => intro i; rfl
  | cons v vs ih =>
    intro i
    simp [distListFrom, ih]

/-- Every entry of the tagged distance list is the distance of the query to a
stored vector, tagged with that vector's position. -/
theorem mem_distListFrom {V : Type} (d : V → V → ℚ) (qv : V) :
    ∀ (l : List V) (i : Int) (p : ℚ × Int), p ∈ distListFrom d qv i l →
      ∃ j : Nat, ∃ hj : j < l.length,
        p.1 = d qv (l.get ⟨j, hj⟩) ∧ p.2 = i + j := by
  intro l
  induction l with
  | nil =>
    intro i p hp
    exact absurd hp (List.not_mem_nil p)
  | cons v vs ih =>
    intro i p hp
    rcases List.mem_cons.mp hp with rfl | hmem
    · exact ⟨0, by simp, rfl, by simp⟩
    · obtain ⟨j, hj, h1, h2⟩ := ih (i + 1) p hmem
      refine ⟨j + 1, by simpa using Nat.succ_lt_succ hj, ?_, ?_⟩
      · simpa using h1
      · rw [h2]
        push_cast
        ring

/-- Claim C8: search returns an empty sequence on an empty index (never an
exception: the model is a total function); otherwise it asks FAISS for
min(top_k, index size) neighbours and returns exactly that many matches,
closest first (similarity_score non-decreasing along the result, i.e. best
first), every reported similarity_score being verbatim the raw distance of the
query vector to some stored vector; entries with sentinel position -1 are
dropped by the filter in the definition (none arise here, since the request
never exceeds the index size), so a top_k larger than the index yields exactly
index-size results rather than an error. -/
theorem C8_search_semantics {V : Type} (d : V → V → ℚ) (st : SearchState V)
    (qv : V) (top_k : Nat) :
    (st.faiss_index = [] → SemanticSearchService.search d st qv top_k = []) ∧
    (st.faiss_index ≠ [] →
      (SemanticSearchService.search d st qv top_k).length =
        min top_k st.faiss_index.length ∧
      List.Pairwise (· ≤ ·)
        ((SemanticSearchService.search d st qv top_k).map ClauseMatch.similarity_score) ∧
      ∀ m ∈ SemanticSearchService.search d st qv top_k,
        ∃ j : Nat, ∃ hj : j < st.faiss_index.length,
          m.similarity_score = d qv (st.faiss_index.get ⟨j, hj⟩)) := by
  constructor
  · intro h
    simp [SemanticSearchService.search, h]
  · intro hne
    have hn0 : ¬(st.faiss_index.length = 0) := fun h => hne (List.length_eq_zero.mp h)
    have hs : SemanticSearchService.search d st qv top_k =
        ((faissSearch d st.faiss_index qv (min top_k st.faiss_index.length)).filter
            (fun p => p.2 != -1)).map
          (fun p => ⟨(st.document_store.getD p.2.toNat ⟨"", 0, ""⟩).content, p.1⟩) := by
      rw [SemanticSearchService.search, if_neg hn0]
    have hmemT : ∀ p ∈ faissSearch d st.faiss_index qv (min top_k st.faiss_index.length),
        p ∈ distListFrom d qv 0 st.faiss_index := by
      intro p hp
      exact (List.mem_insertionSort distLE).mp
        (List.take_subset _ _ hp)
    have hpos : ∀ p ∈ faissSearch d st.faiss_index qv (min top_k st.faiss_index.length),
        (p.2 != -1) = true := by
      intro p hp
      obtain ⟨j, hj, _, h2⟩ := mem_distListFrom d qv st.faiss_index 0 p (hmemT p hp)
      rw [h2]
      simp
    have hfilter : (faissSearch d st.faiss_index qv (min top_k st.faiss_index.length)).filter
        (fun p => p.2 != -1) =
        faissSearch d st.faiss_index qv (min top_k st.faiss_index.length) :=
      List.filter_eq_self.mpr hpos
    have hTlen : (faissSearch d st.faiss_index qv (min top_k st.faiss_index.length)).length =
        min top_k st.faiss_index.length := by
      rw [faissSearch, List.length_take]
      simp only [List.length_insertionSort, distListFrom_length]
      omega
    have hsorted : List.Pairwise distLE
        (faissSearch d st.faiss_index qv (min top_k st.faiss_index.length)) :=
      List.Pairwise.sublist (List.take_sublist _ _)
        (List.sorted_insertionSort distLE (distListFrom d qv 0 st.faiss_index))
    refine ⟨?_, ?_, ?_⟩
    · rw [hs, hfilter, List.length_map, hTlen]
    · rw [hs, hfilter, List.map_map]
      exact List.Pairwise.map _ (fun a b hab => hab) hsorted
    · intro m hm
      rw [hs, hfilter] at hm
      obtain ⟨p, hp, hpm⟩ := List.mem_map.mp hm
      obtain ⟨j, hj, h1, _⟩ := mem_distListFrom d qv st.faiss_index 0 p (hmemT p hp)
      exact ⟨j, hj, by rw [← hpm]; exact h1⟩

/-- Squared Euclidean distance on a one-dimensional example vector space. -/
def dEx (a b : ℚ) : ℚ := (a - b) * (a - b)

/-- Witness for C8 at concrete inputs: the empty index yields no matches, and
on a two-vector index a top_k of 8 yields exactly 2 matches, best first. -/
theorem C8_search_semantics_witness :
    SemanticSearchService.search dEx ⟨[], []⟩ (9 : ℚ) 8 = [] ∧
    (SemanticSearchService.search dEx
        ⟨[(0 : ℚ), 10], [⟨"a", 0, "s"⟩, ⟨"b", 1, "s"⟩]⟩ (9 : ℚ) 8).length = 2 ∧
    List.Pairwise (· ≤ ·)
      ((SemanticSearchService.search dEx
          ⟨[(0 : ℚ), 10], [⟨"a", 0, "s"⟩, ⟨"b", 1, "s"⟩]⟩ (9 : ℚ) 8).map
        ClauseMatch.similarity_score) := by
  have h1 := (C8_search_semantics dEx ⟨[], []⟩ (9 : ℚ) 8).1 rfl
  have h2 := (C8_search_semantics dEx
    ⟨[(0 : ℚ), 10], [⟨"a", 0, "s"⟩, ⟨"b", 1, "s"⟩]⟩ (9 : ℚ) 8).2 (by simp)
  exact ⟨h1, h2.1, h2.2.1⟩
